import Mathlib

/-!
# tickstep/library-go: expiring values and the resolving dialer

A shallow embedding of `expires/expires.go` and of the configuration and
address-selection functions of `requester/dial.go`, followed by the properties
proved about them.

Conventions of the embedding.

* Calls into the Go standard library are not part of the repository.  The clock
  reading `time.Now()` is an explicit argument `now`; `time.Time` is an instant
  on the nanosecond timeline (`Time.Add` is addition of a duration, `Time.After`
  is the strict order), the way the `time` package documents them.
  `net.ParseIP`, `net.IP.String` and the outcome of
  `net.DefaultResolver.LookupIPAddr` are parameters of the functions using them.
* `time.Duration` is an `int64` count of nanoseconds; the range is carried by the
  type `Duration`.
* A method with a pointer receiver returns its result together with the receiver
  after the call; the package variables `localTCPAddrList` and `ipPref` are
  explicit arguments.
-/

namespace LibraryGo

/-! ## Package `time` (standard library) -/

/-- An instant, in nanoseconds on the timeline (`time.Time`). -/
abbrev Time := Int

/-- Go's `time.Duration`: an `int64` number of nanoseconds. -/
structure Duration where
  ns : Int
  lo : -9223372036854775808 ≤ ns
  hi : ns ≤ 9223372036854775807

/-- Conversion of an untyped integer constant to `time.Duration`; a constant
outside the `int64` range is rejected (the program does not compile). -/
def Duration.ofConst (c : Int) : Option Duration :=
  if h : -9223372036854775808 ≤ c ∧ c ≤ 9223372036854775807 then
    some ⟨c, h.1, h.2⟩
  else
    none

/-- The instant `t + d` (`time.Time.Add`). -/
def Time.Add (t : Time) (d : Duration) : Time := t + d.ns

/-- Whether the instant `t` is after `u` (`time.Time.After`). -/
def Time.After (t u : Time) : Bool := decide (u < t)

/-! ## Package `expires` -/

/-- The struct `expires` of `expires/expires.go`. -/
structure expires where
  expiresAt : Time
  abort : Bool
deriving DecidableEq, Repr

/-- The text type of Go, named apart from the method `String`. -/
abbrev GoString := String

/-- Go: `NewExpires(dur)`, called when the clock reads `now`. -/
def NewExpires (now : Time) (dur : Duration) : expires :=
  let t := Time.Add now dur
  { expiresAt := t, abort := false }

/-- Go: `NewExpiresAt(at)`. -/
def NewExpiresAt (at_ : Time) : expires :=
  { expiresAt := at_, abort := false }

/-- Go: `(ep *expires).GetExpires()`. -/
def expires.GetExpires (ep : expires) : Time × expires :=
  (ep.expiresAt, ep)

/-- Go: `(ep *expires).SetExpires(e)`. -/
def expires.SetExpires (ep : expires) (e : Bool) : expires :=
  { ep with abort := e }

/-- Go: `(ep *expires).IsExpires()`, called when the clock reads `now`. -/
def expires.IsExpires (ep : expires) (now : Time) : Bool × expires :=
  (ep.abort || Time.After now ep.expiresAt, ep)

/-- Go: `(ep *expires).String()`; `timeString` is the rendering of an instant by
the verb `%s`. -/
def expires.String (timeString : Time → GoString) (ep : expires) : GoString × expires :=
  ("expires at: " ++ timeString ep.expiresAt ++ ", abort: " ++ toString ep.abort, ep)

/-- One call of a method of the interface `Expires`. -/
inductive Call where
  | IsExpires : Call
  | GetExpires : Call
  | SetExpires : Bool → Call
  | String : Call
deriving DecidableEq, Repr

/-- The receiver after one call made when the clock reads `now`. -/
def Call.exec (timeString : Time → GoString) (c : Call) (now : Time) (ep : expires) : expires :=
  match c with
  | Call.IsExpires => (ep.IsExpires now).2
  | Call.GetExpires => ep.GetExpires.2
  | Call.SetExpires e => ep.SetExpires e
  | Call.String => (ep.String timeString).2

/-- The receiver after a sequence of calls, each with the clock reading at which
it is made. -/
def runCalls (timeString : Time → GoString) : List (Call × Time) → expires → expires
  | [], ep => ep
  | (c, now) :: rest, ep => runCalls timeString rest (c.exec timeString now ep)

/-! ## Package `requester` (`dial.go`) -/

/-- Go: `type IPType string`. -/
abbrev IPType := GoString

/-- Go: the untyped constant `MaxDuration = 1<<63 - 1`. -/
def MaxDuration : Int := ((1 <<< 63 : Nat) : Int) - 1

/-- Go: `IPAny IPType = "any"`. -/
def IPAny : IPType := "any"

/-- Go: `IPv4 IPType = "ipv4"`. -/
def IPv4 : IPType := "ipv4"

/-- Go: `IPv6 IPType = "ipv6"`. -/
def IPv6 : IPType := "ipv6"

/-- Whether `substr` occurs in `s` starting at some position of `s`
(`strings.Contains`), on the characters of the two texts. -/
def strings.Contains.go (substr : List Char) : List Char → Bool
  | [] => substr.isEmpty
  | c :: cs => substr.isPrefixOf (c :: cs) || strings.Contains.go substr cs

/-- Go standard library: `strings.Contains(s, substr)`. -/
def strings.Contains (s substr : GoString) : Bool :=
  strings.Contains.go substr.toList s.toList

/-- Go: `isIPv4(ip)`. -/
def isIPv4 (ip : GoString) : Bool :=
  strings.Contains ip "."

/-- Go: `isIPv6(ip)`. -/
def isIPv6 (ip : GoString) : Bool :=
  strings.Contains ip ":"

/-- Go standard library: `net.TCPAddr`, over the representation `IP` of `net.IP`. -/
structure TCPAddr (IP : Type) where
  IP : IP
  Port : Int
  Zone : GoString
deriving DecidableEq, Repr

/-- Go standard library: `net.IPAddr`. -/
structure IPAddr (IP : Type) where
  IP : IP
  Zone : GoString
deriving DecidableEq, Repr

/-- Go: the composite literal `&net.TCPAddr{IP: p}`; the other fields are zero. -/
def TCPAddr.ofIP {IP : Type} (p : IP) : TCPAddr IP :=
  { IP := p, Port := 0, Zone := "" }

/-- The loop of `SetLocalTCPAddrList` over the remaining entries of `ips`, with
the slice `list` built so far.  `ParseIP s = none` stands for `net.ParseIP(s) == nil`. -/
def SetLocalTCPAddrList.loop {IP : Type} (ParseIP : GoString → Option IP) :
    List GoString → List (TCPAddr IP) → List (TCPAddr IP)
  | [], list => list
  | s :: rest, list =>
    match ParseIP s with
    | none => SetLocalTCPAddrList.loop ParseIP rest list
    | some p => SetLocalTCPAddrList.loop ParseIP rest (list ++ [TCPAddr.ofIP p])

/-- Go: `SetLocalTCPAddrList(ips...)`.  The argument `_localTCPAddrList` is the
package variable before the call; the result is the package variable after the
final assignment `localTCPAddrList = list`, which overwrites it. -/
def SetLocalTCPAddrList {IP : Type} (ParseIP : GoString → Option IP)
    (_localTCPAddrList : List (TCPAddr IP)) (ips : List GoString) : List (TCPAddr IP) :=
  let list : List (TCPAddr IP) := []
  SetLocalTCPAddrList.loop ParseIP ips list

/-- How a call of `resolveTCPHost` ends: it returns `(ip, nil)`, it returns
`(nil, err)`, or it stops with the run-time panic "index out of range". -/
inductive Outcome (ε IP : Type) where
  | ok : IP → Outcome ε IP
  | error : ε → Outcome ε IP
  | panic : Outcome ε IP
deriving DecidableEq, Repr

/-- The `for ... range addrs` loop of `resolveTCPHost`: `some ip` when the loop
body returns `ip`, `none` when the loop runs to its end.  `ipString` is
`net.IP.String`. -/
def resolveTCPHost.loop {IP : Type} (ipString : IP → GoString) (ipPref : IPType) :
    List (IPAddr IP) → Option IP
  | [] => none
  | ipaddr :: rest =>
    if ipPref == IPv4 then
      if isIPv4 (ipString ipaddr.IP) then some ipaddr.IP
      else resolveTCPHost.loop ipString ipPref rest
    else if ipPref == IPv6 then
      if isIPv6 (ipString ipaddr.IP) then some ipaddr.IP
      else resolveTCPHost.loop ipString ipPref rest
    else resolveTCPHost.loop ipString ipPref rest

/-- Go: `resolveTCPHost(ctx, host)`.  The pair `(addrs, err)` is what
`net.DefaultResolver.LookupIPAddr(ctx, host)` returned (`err = none` is `nil`),
`ipPref` is the package variable. -/
def resolveTCPHost {ε IP : Type} (ipString : IP → GoString) (ipPref : IPType)
    (addrs : List (IPAddr IP)) (err : Option ε) : Outcome ε IP :=
  match err with
  | some e => Outcome.error e
  | none =>
    match resolveTCPHost.loop ipString ipPref addrs with
    | some ip => Outcome.ok ip
    | none =>
      match addrs with
      | [] => Outcome.panic
      | first :: _ => Outcome.ok first.IP

/-! ## The selection policy in the words of the specification -/

/-- The address the specification selects from a list of results: under the
preference `ipv4` the first result that is an IPv4 literal, under `ipv6` the
first result that is an IPv6 literal, and the first result of the list when
there is no such result or the preference is another one. -/
def selectAddr {IP : Type} (ipString : IP → GoString) (ipPref : IPType)
    (addrs : List (IPAddr IP)) : Option IP :=
  let preferred : Option (IPAddr IP) :=
    if ipPref = IPv4 then addrs.find? (fun a => isIPv4 (ipString a.IP))
    else if ipPref = IPv6 then addrs.find? (fun a => isIPv6 (ipString a.IP))
    else none
  match preferred with
  | some a => some a.IP
  | none => addrs.head?.map (fun a => a.IP)

/-! ## Auxiliary facts -/

theorem Time.After_iff (t u : Time) : Time.After t u = true ↔ u < t := by
  simp [Time.After]

theorem Time.After_eq_false_iff (t u : Time) : Time.After t u = false ↔ t ≤ u := by
  simp [Time.After]

theorem Call.exec_expiresAt (timeString : Time → GoString) (c : Call) (now : Time)
    (ep : expires) : (c.exec timeString now ep).expiresAt = ep.expiresAt := by
  cases c <;> rfl

theorem Call.exec_abort (timeString : Time → GoString) (c : Call) (now : Time)
    (ep : expires) (hc : c ≠ Call.SetExpires false) (hep : ep.abort = true) :
    (c.exec timeString now ep).abort = true := by
  cases c with
  | IsExpires => exact hep
  | GetExpires => exact hep
  | String => exact hep
  | SetExpires e =>
    cases e with
    | true => rfl
    | false => exact absurd rfl hc

theorem runCalls_abort (timeString : Time → GoString) (calls : List (Call × Time)) :
    ∀ ep : expires, ep.abort = true →
      (∀ p ∈ calls, p.1 ≠ Call.SetExpires false) →
      (runCalls timeString calls ep).abort = true := by
  induction calls with
  | nil => intro ep hep _; exact hep
  | cons p rest ih =>
    intro ep hep hno
    obtain ⟨c, now⟩ := p
    have hc : c ≠ Call.SetExpires false := hno (c, now) (List.mem_cons_self _ _)
    have hrest : ∀ q ∈ rest, q.1 ≠ Call.SetExpires false :=
      fun q hq => hno q (List.mem_cons_of_mem _ hq)
    exact ih (c.exec timeString now ep) (Call.exec_abort timeString c now ep hc hep) hrest

theorem runCalls_expiresAt (timeString : Time → GoString) (calls : List (Call × Time)) :
    ∀ ep : expires, (runCalls timeString calls ep).expiresAt = ep.expiresAt := by
  induction calls with
  | nil => intro ep; rfl
  | cons p rest ih =>
    intro ep
    obtain ⟨c, now⟩ := p
    show (runCalls timeString rest (c.exec timeString now ep)).expiresAt = ep.expiresAt
    rw [ih, Call.exec_expiresAt]

theorem SetLocalTCPAddrList.loop_eq {IP : Type} (ParseIP : GoString → Option IP)
    (ips : List GoString) :
    ∀ list : List (TCPAddr IP),
      SetLocalTCPAddrList.loop ParseIP ips list
        = list ++ (ips.filterMap ParseIP).map TCPAddr.ofIP := by
  induction ips with
  | nil => intro list; simp [SetLocalTCPAddrList.loop]
  | cons s rest ih =>
    intro list
    cases hs : ParseIP s with
    | none => simp [SetLocalTCPAddrList.loop, hs, ih]
    | some p => simp [SetLocalTCPAddrList.loop, hs, ih]

theorem length_filterMap_eq_countP {α β : Type} (f : α → Option β) (l : List α) :
    (l.filterMap f).length = l.countP (fun a => (f a).isSome) := by
  induction l with
  | nil => rfl
  | cons a rest ih =>
    cases ha : f a with
    | none => simp [List.filterMap_cons, ha, ih]
    | some b => simp [List.filterMap_cons, ha, ih]

theorem count_filterMap_eq_countP {α β : Type} [DecidableEq β] (f : α → Option β)
    (b : β) (l : List α) :
    (l.filterMap f).count b = l.countP (fun a => f a == some b) := by
  induction l with
  | nil => rfl
  | cons a rest ih =>
    cases ha : f a with
    | none => simp [List.filterMap_cons, ha, ih]
    | some c =>
      by_cases hcb : c = b
      · simp [List.filterMap_cons, ha, ih, hcb]
      · simp [List.filterMap_cons, ha, ih, hcb, List.count_cons]

theorem TCPAddr.ofIP_injective {IP : Type} :
    Function.Injective (TCPAddr.ofIP : IP → TCPAddr IP) := by
  intro p q h
  exact congrArg TCPAddr.IP h

theorem resolveTCPHost.loop_eq_find {IP : Type} (ipString : IP → GoString) (ipPref : IPType)
    (addrs : List (IPAddr IP)) :
    resolveTCPHost.loop ipString ipPref addrs
      = if ipPref = IPv4 then
          (addrs.find? (fun a => isIPv4 (ipString a.IP))).map (fun a => a.IP)
        else if ipPref = IPv6 then
          (addrs.find? (fun a => isIPv6 (ipString a.IP))).map (fun a => a.IP)
        else none := by
  induction addrs with
  | nil => simp [resolveTCPHost.loop]
  | cons a rest ih =>
    by_cases h4 : ipPref = IPv4
    · by_cases ha : isIPv4 (ipString a.IP) = true
      · simp [resolveTCPHost.loop, h4, ha]
      · simp only [h4, if_true] at ih
        simp [resolveTCPHost.loop, h4, ha, ih]
    · by_cases h6 : ipPref = IPv6
      · have h64 : ¬ (IPv6 = IPv4) := by decide
        by_cases ha : isIPv6 (ipString a.IP) = true
        · simp [resolveTCPHost.loop, h6, h64, ha]
        · simp only [h6, h64, if_true, if_false] at ih
          simp [resolveTCPHost.loop, h6, h64, ha, ih]
      · simp only [h4, h6, if_false] at ih
        simp [resolveTCPHost.loop, h4, h6, ih]

theorem resolveTCPHost_eq_selectAddr {ε IP : Type} (ipString : IP → GoString)
    (ipPref : IPType) (a : IPAddr IP) (rest : List (IPAddr IP)) :
    ∃ ip : IP, resolveTCPHost ipString ipPref (a :: rest) (none : Option ε) = Outcome.ok ip ∧
      selectAddr ipString ipPref (a :: rest) = some ip := by
  unfold resolveTCPHost selectAddr
  rw [resolveTCPHost.loop_eq_find]
  by_cases h4 : ipPref = IPv4
  · simp only [h4, if_true]
    cases List.find? (fun a => isIPv4 (ipString a.IP)) (a :: rest) with
    | none => exact ⟨a.IP, rfl, rfl⟩
    | some b => exact ⟨b.IP, rfl, rfl⟩
  · by_cases h6 : ipPref = IPv6
    · simp only [h4, h6, if_true, if_false]
      cases List.find? (fun a => isIPv6 (ipString a.IP)) (a :: rest) with
      | none => exact ⟨a.IP, rfl, rfl⟩
      | some b => exact ⟨b.IP, rfl, rfl⟩
    · simp only [h4, h6, if_false]
      exact ⟨a.IP, rfl, rfl⟩

theorem resolveTCPHost_ok_mem {ε IP : Type} (ipString : IP → GoString) (ipPref : IPType)
    (addrs : List (IPAddr IP)) (ip : IP)
    (h : resolveTCPHost ipString ipPref addrs (none : Option ε) = Outcome.ok ip) :
    ∃ a ∈ addrs, a.IP = ip := by
  cases addrs with
  | nil => simp [resolveTCPHost, resolveTCPHost.loop] at h
  | cons a rest =>
    unfold resolveTCPHost at h
    rw [resolveTCPHost.loop_eq_find] at h
    by_cases h4 : ipPref = IPv4
    · simp only [h4, if_true] at h
      cases hf : List.find? (fun a => isIPv4 (ipString a.IP)) (a :: rest) with
      | none =>
        simp only [hf, Option.map_none', Outcome.ok.injEq] at h
        exact ⟨a, List.mem_cons_self _ _, h⟩
      | some b =>
        simp only [hf, Option.map_some', Outcome.ok.injEq] at h
        exact ⟨b, List.mem_of_find?_eq_some hf, h⟩
    · by_cases h6 : ipPref = IPv6
      · have h64 : ¬ (IPv6 = IPv4) := by decide
        simp only [h6, h64, if_true, if_false] at h
        cases hf : List.find? (fun a => isIPv6 (ipString a.IP)) (a :: rest) with
        | none =>
          simp only [hf, Option.map_none', Outcome.ok.injEq] at h
          exact ⟨a, List.mem_cons_self _ _, h⟩
        | some b =>
          simp only [hf, Option.map_some', Outcome.ok.injEq] at h
          exact ⟨b, List.mem_of_find?_eq_some hf, h⟩
      · simp only [h4, h6, if_false, Outcome.ok.injEq] at h
        exact ⟨a, List.mem_cons_self _ _, h⟩

/-! ## Expiring values -/

/-- C1: for every value and every clock reading `now`, `IsExpires` returns
`abort || now.After(expiresAt)`, that is the abort flag or-ed with `expiresAt < now`,
and leaves the receiver (both fields) as it was; at `now = expiresAt` with the
abort flag false the value is not expired. -/
theorem IsExpires_eq_abort_or_after (ep : expires) (now : Time) :
    (ep.IsExpires now).1 = (ep.abort || decide (ep.expiresAt < now)) ∧
    (ep.IsExpires now).2.expiresAt = ep.expiresAt ∧
    (ep.IsExpires now).2.abort = ep.abort ∧
    (({ expiresAt := now, abort := false } : expires).IsExpires now).1 = false := by
  refine ⟨rfl, rfl, rfl, ?_⟩
  simp [expires.IsExpires, Time.After]

/-- C2, as stated, fails: a value that expires at instant 100 has its abort flag
set by `SetExpires(true)`; the later call `SetExpires(false)` clears the flag
and `IsExpires` at instant 2 returns false. -/
theorem SetExpires_false_unsets_abort :
    ((NewExpiresAt 100).SetExpires true).abort = true ∧
    (((NewExpiresAt 100).SetExpires true).IsExpires 0).1 = true ∧
    (runCalls (fun _ => "") [(Call.SetExpires false, 1)]
      ((NewExpiresAt 100).SetExpires true)).abort = false ∧
    ((runCalls (fun _ => "") [(Call.SetExpires false, 1)]
      ((NewExpiresAt 100).SetExpires true)).IsExpires 2).1 = false := by
  decide

/-- C2, amended: after `SetExpires(true)`, for every later sequence of calls of
`GetExpires`, `IsExpires`, `String` and `SetExpires(true)` (no call
`SetExpires(false)`), made at any instants, the abort flag is still true, the
expiry instant is unchanged and `IsExpires` returns true at every instant. -/
theorem abort_kept_without_SetExpires_false (timeString : Time → GoString) (ep : expires)
    (calls : List (Call × Time)) (now : Time)
    (hno : ∀ p ∈ calls, p.1 ≠ Call.SetExpires false) :
    (runCalls timeString calls (ep.SetExpires true)).abort = true ∧
    (runCalls timeString calls (ep.SetExpires true)).expiresAt = ep.expiresAt ∧
    ((runCalls timeString calls (ep.SetExpires true)).IsExpires now).1 = true := by
  have habort := runCalls_abort timeString calls (ep.SetExpires true) rfl hno
  refine ⟨habort, ?_, ?_⟩
  · rw [runCalls_expiresAt]; rfl
  · simp [expires.IsExpires, habort]

theorem abort_kept_without_SetExpires_false_witness :
    (∀ p ∈ [(Call.IsExpires, (5 : Time)), (Call.SetExpires true, 6), (Call.GetExpires, 7),
        (Call.String, 8)], p.1 ≠ Call.SetExpires false) ∧
    (runCalls (fun _ => "") [(Call.IsExpires, 5), (Call.SetExpires true, 6),
        (Call.GetExpires, 7), (Call.String, 8)] ((NewExpiresAt 100).SetExpires true)).abort
      = true ∧
    ((runCalls (fun _ => "") [(Call.IsExpires, 5), (Call.SetExpires true, 6),
        (Call.GetExpires, 7), (Call.String, 8)]
        ((NewExpiresAt 100).SetExpires true)).IsExpires 9).1 = true :=
  have h := abort_kept_without_SetExpires_false (fun _ => "") (NewExpiresAt 100)
    [(Call.IsExpires, 5), (Call.SetExpires true, 6), (Call.GetExpires, 7), (Call.String, 8)]
    9 (by decide)
  ⟨by decide, h.1, h.2.2⟩

/-- C3: for every value, every boolean `b` and every instant `now`, after
`SetExpires(b)` the instant returned by `GetExpires` is the one returned before
and `IsExpires` at `now` is `b` or-ed with `expiresAt < now`; so after
`SetExpires(true)` then `SetExpires(false)` the value is expired exactly when
`expiresAt` has passed. -/
theorem SetExpires_independent_of_time_check (ep : expires) (b : Bool) (now : Time) :
    (ep.SetExpires b).GetExpires.1 = ep.GetExpires.1 ∧
    ((ep.SetExpires b).IsExpires now).1 = (b || decide (ep.expiresAt < now)) ∧
    (((ep.SetExpires true).SetExpires false).IsExpires now).1 = decide (ep.expiresAt < now) ∧
    ((ep.SetExpires true).SetExpires false).abort = false := by
  refine ⟨rfl, rfl, ?_, rfl⟩
  simp [expires.IsExpires, expires.SetExpires, Time.After]

/-- C4: for every creation instant `t0` and every duration `d > 0`, the value
built by `NewExpires(d)` at `t0` has `expiresAt = t0 + d` and `abort = false`;
`IsExpires` is false at `t0` and at every instant `t` with `t0 ≤ t ≤ t0 + d`, and
true at every instant `t > t0 + d`. -/
theorem NewExpires_expired_iff_past (t0 : Time) (d : Duration) (hd : 0 < d.ns) :
    (NewExpires t0 d).expiresAt = t0 + d.ns ∧
    (NewExpires t0 d).abort = false ∧
    ((NewExpires t0 d).IsExpires t0).1 = false ∧
    (∀ t : Time, t0 ≤ t → t ≤ t0 + d.ns → ((NewExpires t0 d).IsExpires t).1 = false) ∧
    (∀ t : Time, t0 + d.ns < t → ((NewExpires t0 d).IsExpires t).1 = true) := by
  refine ⟨rfl, rfl, ?_, ?_, ?_⟩
  · simp only [expires.IsExpires, NewExpires, Time.Add, Time.After, Bool.false_or,
      decide_eq_false_iff_not, not_lt]
    exact le_of_lt (lt_add_of_pos_right t0 hd)
  · intro t _ ht
    simp only [expires.IsExpires, NewExpires, Time.Add, Time.After, Bool.false_or,
      decide_eq_false_iff_not, not_lt]
    exact ht
  · intro t ht
    simp only [expires.IsExpires, NewExpires, Time.Add, Time.After, Bool.false_or,
      decide_eq_true_eq]
    exact ht

theorem NewExpires_expired_iff_past_witness :
    (0 : Int) < (Duration.mk 5 (by decide) (by decide)).ns ∧
    (NewExpires 1000 (Duration.mk 5 (by decide) (by decide))).expiresAt = 1005 ∧
    ((NewExpires 1000 (Duration.mk 5 (by decide) (by decide))).IsExpires 1000).1 = false ∧
    ((NewExpires 1000 (Duration.mk 5 (by decide) (by decide))).IsExpires 1005).1 = false ∧
    ((NewExpires 1000 (Duration.mk 5 (by decide) (by decide))).IsExpires 1006).1 = true :=
  have h := NewExpires_expired_iff_past 1000 (Duration.mk 5 (by decide) (by decide))
    (by decide)
  ⟨by decide, h.1, h.2.2.1, h.2.2.2.1 1005 (by decide) (by decide),
    h.2.2.2.2 1006 (by decide)⟩

/-- C5: for every instant `at`, `NewExpiresAt(at)` yields a value whose
`GetExpires` is `at` and whose abort flag is false; at every instant `now` the
fresh value is expired exactly when `at < now`, so a value built for the
instant before `now` is expired at `now`. -/
theorem NewExpiresAt_verbatim (at_ now : Time) :
    (NewExpiresAt at_).GetExpires.1 = at_ ∧
    (NewExpiresAt at_).abort = false ∧
    ((NewExpiresAt at_).IsExpires now).1 = decide (at_ < now) ∧
    ((NewExpiresAt (now - 1)).IsExpires now).1 = true := by
  refine ⟨rfl, rfl, ?_, ?_⟩
  · simp [expires.IsExpires, NewExpiresAt, Time.After]
  · simp [expires.IsExpires, NewExpiresAt, Time.After]

/-- C6: the constant `MaxDuration` is `2^63 - 1`, it converts to a
`time.Duration` unchanged (it lies in the `int64` range), and for every creation
instant `t0` the value built by `NewExpires(MaxDuration)` has
`expiresAt = t0 + (2^63 - 1)`, strictly later than `t0`; the value is not expired
at `t0`, and at every instant `t` it is expired exactly when
`t0 + (2^63 - 1) < t`. -/
theorem NewExpires_MaxDuration (t0 : Time) :
    MaxDuration = 2 ^ 63 - 1 ∧
    ∃ d : Duration, Duration.ofConst MaxDuration = some d ∧ d.ns = 2 ^ 63 - 1 ∧
      (NewExpires t0 d).expiresAt = t0 + (2 ^ 63 - 1) ∧
      t0 < (NewExpires t0 d).expiresAt ∧
      ((NewExpires t0 d).IsExpires t0).1 = false ∧
      ((NewExpires t0 d).IsExpires (t0 + (2 ^ 63 - 1))).1 = false ∧
      ∀ t : Time, ((NewExpires t0 d).IsExpires t).1 = decide (t0 + (2 ^ 63 - 1) < t) := by
  refine ⟨by decide, ⟨9223372036854775807, by decide, by decide⟩, rfl, by decide,
    ?_, ?_, ?_, ?_, ?_⟩
  · simp [NewExpires, Time.Add]
  · simp [NewExpires, Time.Add]
  · simp [expires.IsExpires, NewExpires, Time.Add, Time.After]
  · simp [expires.IsExpires, NewExpires, Time.Add, Time.After]
  · intro t
    simp [expires.IsExpires, NewExpires, Time.Add, Time.After]

/-! ## The resolving dialer -/

/-- C8: for every non-empty list of addresses returned with a nil error,
`resolveTCPHost` returns the address the specification selects: under the
preference `ipv4` the first address of the list whose text is an IPv4 literal
when there is one, under `ipv6` the first address whose text is an IPv6 literal
when there is one, and the first element of the list in every other case.  For
the list `[2001:db8::1, 198.51.100.7]` the result is `198.51.100.7` under `ipv4`,
`2001:db8::1` under `ipv6` and `2001:db8::1` under `any`. -/
theorem resolveTCPHost_selects {ε IP : Type} (ipString : IP → GoString) (ipPref : IPType)
    (addrs : List (IPAddr IP)) (hne : addrs ≠ []) :
    (∃ ip : IP, resolveTCPHost ipString ipPref addrs (none : Option ε) = Outcome.ok ip ∧
      selectAddr ipString ipPref addrs = some ip) ∧
    (ipPref = IPv4 → ∀ a, addrs.find? (fun a => isIPv4 (ipString a.IP)) = some a →
      resolveTCPHost ipString ipPref addrs (none : Option ε) = Outcome.ok a.IP) ∧
    (ipPref = IPv6 → ∀ a, addrs.find? (fun a => isIPv6 (ipString a.IP)) = some a →
      resolveTCPHost ipString ipPref addrs (none : Option ε) = Outcome.ok a.IP) ∧
    ((ipPref = IPv4 → addrs.find? (fun a => isIPv4 (ipString a.IP)) = none) →
      (ipPref = IPv6 → addrs.find? (fun a => isIPv6 (ipString a.IP)) = none) →
      resolveTCPHost ipString ipPref addrs (none : Option ε)
        = Outcome.ok (addrs.head hne).IP) ∧
    resolveTCPHost (fun s : GoString => s) IPv4
        [⟨"2001:db8::1", ""⟩, ⟨"198.51.100.7", ""⟩] (none : Option ε)
      = Outcome.ok "198.51.100.7" ∧
    resolveTCPHost (fun s : GoString => s) IPv6
        [⟨"2001:db8::1", ""⟩, ⟨"198.51.100.7", ""⟩] (none : Option ε)
      = Outcome.ok "2001:db8::1" ∧
    resolveTCPHost (fun s : GoString => s) IPAny
        [⟨"2001:db8::1", ""⟩, ⟨"198.51.100.7", ""⟩] (none : Option ε)
      = Outcome.ok "2001:db8::1" := by
  cases addrs with
  | nil => exact absurd rfl hne
  | cons a rest =>
    refine ⟨resolveTCPHost_eq_selectAddr ipString ipPref a rest, ?_, ?_, ?_, rfl, rfl, rfl⟩
    · intro h4 b hb
      unfold resolveTCPHost
      rw [resolveTCPHost.loop_eq_find]
      simp only [h4, if_true, hb, Option.map_some']
    · intro h6 b hb
      have h64 : ¬ (IPv6 = IPv4) := by decide
      unfold resolveTCPHost
      rw [resolveTCPHost.loop_eq_find]
      simp only [h6, h64, if_true, if_false, hb, Option.map_some']
    · intro h4 h6
      unfold resolveTCPHost
      rw [resolveTCPHost.loop_eq_find]
      by_cases e4 : ipPref = IPv4
      · simp only [e4, if_true, h4 e4, Option.map_none', List.head_cons]
      · by_cases e6 : ipPref = IPv6
        · have h64 : ¬ (IPv6 = IPv4) := by decide
          have hf := h6 e6
          simp only [e6, h64, if_true, if_false, hf, Option.map_none', List.head_cons]
        · simp only [e4, e6, if_false, List.head_cons]

theorem resolveTCPHost_selects_witness :
    ([⟨"2001:db8::1", ""⟩, ⟨"198.51.100.7", ""⟩] : List (IPAddr GoString)) ≠ [] ∧
    resolveTCPHost (fun s : GoString => s) IPv4
        [⟨"2001:db8::1", ""⟩, ⟨"198.51.100.7", ""⟩] (none : Option Unit)
      = Outcome.ok "198.51.100.7" :=
  have h := @resolveTCPHost_selects Unit GoString (fun s : GoString => s) IPv4
    [⟨"2001:db8::1", ""⟩, ⟨"198.51.100.7", ""⟩] (by decide)
  ⟨by decide, h.2.1 rfl ⟨"198.51.100.7", ""⟩ (by decide)⟩

/-- C9: for every list `ips` and every prior candidate list,
`SetLocalTCPAddrList(ips...)` ends with the candidate list equal to the
addresses `&net.TCPAddr{IP: p}` of the entries of `ips` that parse, in input
order; its length is the number of parseable entries, every parsed address
occurs as often as entries parse to it, and the result does not depend on the
prior list. -/
theorem SetLocalTCPAddrList_replaces {IP : Type} [DecidableEq IP]
    (ParseIP : GoString → Option IP) (localTCPAddrList : List (TCPAddr IP))
    (ips : List GoString) :
    SetLocalTCPAddrList ParseIP localTCPAddrList ips
      = (ips.filterMap ParseIP).map TCPAddr.ofIP ∧
    (SetLocalTCPAddrList ParseIP localTCPAddrList ips).length
      = ips.countP (fun s => (ParseIP s).isSome) ∧
    (∀ p : IP, (SetLocalTCPAddrList ParseIP localTCPAddrList ips).count (TCPAddr.ofIP p)
      = ips.countP (fun s => ParseIP s == some p)) ∧
    SetLocalTCPAddrList ParseIP localTCPAddrList ips = SetLocalTCPAddrList ParseIP [] ips := by
  have heq : ∀ prior : List (TCPAddr IP), SetLocalTCPAddrList ParseIP prior ips
      = (ips.filterMap ParseIP).map TCPAddr.ofIP := by
    intro prior
    simp [SetLocalTCPAddrList, SetLocalTCPAddrList.loop_eq]
  refine ⟨heq _, ?_, ?_, ?_⟩
  · rw [heq, List.length_map, length_filterMap_eq_countP]
  · intro p
    rw [heq, List.count_map_of_injective _ _ TCPAddr.ofIP_injective,
      count_filterMap_eq_countP]
  · rw [heq, heq]

/-- C10, the failing input: when the resolver returns the empty list with a nil
error, `resolveTCPHost` reaches `addrs[0]` and stops with the panic "index out
of range", under every preference. -/
theorem resolveTCPHost_empty_list_panics {ε IP : Type} (ipString : IP → GoString)
    (ipPref : IPType) :
    resolveTCPHost ipString ipPref ([] : List (IPAddr IP)) (none : Option ε)
      = Outcome.panic := by
  simp [resolveTCPHost, resolveTCPHost.loop]

end LibraryGo
